import Mathlib

/-!
paddleocr-go: reading order, rectification geometry and pipeline sequencing.

A shallow embedding of `ocr/core.go`: `sortBoxes`, `getRotateCropImage` and `Run`.

* A detected region is a `[][]int` of four `[x, y]` corners; its coordinates are a `Box` of
  four `Point`s. The `int` subtraction of `sortBoxes` wraps at 64 bits (`wrapInt`).
* The edge lengths of `getRotateCropImage` come twice: `edgeLen`, `cropW`, `cropH` in exact
  arithmetic, which `getRotateCropImage` is stated with, and `edgeLenF64`, `cropWF64`,
  `cropHF64` in Go's `int` and float64 arithmetic; `edgeLenF64_eq_edgeLen` gives the range on
  which the two agree.
* The image primitives of gocv (`Region`, `GetPerspectiveTransform` + `WarpPerspective`,
  `Transpose`, `Flip`) are external; an image is a symbolic term `Mat` recording which
  primitive produced it, with `Rows`/`Cols` read off the term.
* The detector, classifier and recognizer are external models; they are fields of
  `TextPredictSystem`, and `Run` records every collaborator call it makes in a trace.
* `Run` works on Go's slices: the detector returns a heap of rows and the regions as row
  headers, `sort.Slice` is a parameter, and the crop loop writes through the row headers
  (`getRotateCropImageMem`, `cropLoop`). `cropLoop_spec` gives the crops when no two regions
  share a row.
-/

namespace Ocr

/-! ## Data model -/

/-- One corner `[]int{x, y}` of a detected region. -/
structure Point where
  x : Int
  y : Int
deriving DecidableEq, Repr

/-- A detected text region `[][]int`: four corners, `box[0]` .. `box[3]`. -/
structure Box where
  p0 : Point
  p1 : Point
  p2 : Point
  p3 : Point
deriving DecidableEq, Repr

/-- The value `boxes[i][0][0]`: x of the first corner. -/
def Box.x (b : Box) : Int := b.p0.x

/-- The value `boxes[i][0][1]`: y of the first corner. -/
def Box.y (b : Box) : Int := b.p0.y

/-! ## sortBoxes -/

/-- The comparator closure handed to `sort.Slice` (core.go lines 84-92), with
`a = boxes[i]` and `b = boxes[j]`. -/
def lessBox (a b : Box) : Bool :=
  if a.y < b.y then true
  else if a.y > b.y then false
  else decide (a.x < b.x)

/-- Inner loop of the insertion sort behind `sort.Slice`:
`for j := i; j > a && less(j, j-1); j-- { swap(j, j-1) }`.
The element `x` stands right after the already sorted prefix, which is given last element
first; `x` moves left past every neighbour it is less than. The result is the new prefix,
again last element first. -/
def sinkLeft {α : Type} (less : α → α → Bool) (x : α) : List α → List α
  | [] => [x]
  | p :: rp => if less x p then p :: sinkLeft less x rp else x :: p :: rp

/-- Go's `sort.Slice(boxes, less)`, as the insertion sort the library runs on slices of at
most 12 elements (`for i := a + 1; i < b; i++ { inner loop }`). On longer slices the library
may order regions with equal keys differently; it promises a sorted permutation and no
stability. When no two regions share their first corner, every such sort returns this list
(`sortSlice_unique`). `Run` takes the library routine as a parameter instead. -/
def sortSlice {α : Type} (less : α → α → Bool) (l : List α) : List α :=
  (l.foldl (fun rp x => sinkLeft less x rp) []).reverse

/-- The value a Go `int` (64 bits, two's complement) takes when the exact result of an
addition or subtraction is `v`. -/
def wrapInt (v : Int) : Int :=
  (v + 9223372036854775808) % 18446744073709551616 - 9223372036854775808

/-- The condition of the corrective pass (core.go line 95) with `a = boxes[i]` and
`b = boxes[i+1]`. The subtraction is Go's `int` subtraction. `math.Abs(float64(d)) < 10` on an
`int` `d` is `|d| < 10`: the conversion is monotone and exact on small integers. -/
def swapCond (a b : Box) : Bool :=
  decide (|wrapInt (b.y - a.y)| < 10) && decide (b.x < a.x)

/-- The loop `for i := 0; i < len(boxes)-1; i++` of core.go lines 94-98, from the moment
`cur` is the element in slot `i` and the argument list holds slots `i+1 ..`. A swap leaves
the same element `cur` in slot `i+1` for the next iteration. -/
def bubble (cur : Box) : List Box → List Box
  | [] => [cur]
  | nxt :: rest =>
    if swapCond cur nxt then nxt :: bubble cur rest else cur :: bubble nxt rest

/-- The single corrective pass over adjacent pairs (core.go lines 94-98). -/
def correctivePass : List Box → List Box
  | [] => []
  | b :: rest => bubble b rest

/-- The method `sortBoxes` (core.go lines 83-100). -/
def sortBoxes (boxes : List Box) : List Box :=
  correctivePass (sortSlice lessBox boxes)

/-- Builds a region from its first corner only (the other corners repeat it). -/
def boxAt (x y : Int) : Box := ⟨⟨x, y⟩, ⟨x, y⟩, ⟨x, y⟩, ⟨x, y⟩⟩

/-! ## getRotateCropImage -/

/-- Modelled from the spec: the helper `mini` is defined outside core.go; per the rectifier's
step 1 it is the minimum of the coordinates in the slice. -/
def mini : List Int → Int
  | [] => 0
  | a :: l => l.foldl min a

/-- Modelled from the spec: the helper `maxi` is defined outside core.go; per the rectifier's
step 1 it is the maximum of the coordinates in the slice. -/
def maxi : List Int → Int
  | [] => 0
  | a :: l => l.foldl max a

/-- An image `gocv.Mat`, as the term of gocv primitives that produced it.
`image` is a decoded input; `region m l t r b` is `m.Region(image.Rect(l, t, r, b))`;
`warp m points ptsstd w h` is `WarpPerspective(m, _, GetPerspectiveTransform(points, ptsstd),
image.Pt(w, h))`; `transpose` and `flip` are `gocv.Transpose` and `gocv.Flip(_, _, code)`. -/
inductive Mat where
  | image (id : Nat) (rows cols : Int)
  | region (m : Mat) (left top right bottom : Int)
  | warp (m : Mat) (points ptsstd : List Point) (w h : Int)
  | transpose (m : Mat)
  | flip (m : Mat) (code : Int)
deriving DecidableEq, Repr

/-- The size `(Rows(), Cols())` of an image: a region has the size of its rectangle, a warp the
requested size `image.Pt(w, h)`, a transpose swaps the two dimensions, a flip keeps them. -/
def Mat.size : Mat → Int × Int
  | .image _ rows cols => (rows, cols)
  | .region _ left top right bottom => (bottom - top, right - left)
  | .warp _ _ _ w h => (h, w)
  | .transpose m => (m.size.2, m.size.1)
  | .flip m _ => m.size

/-- The number of rows `Mat.Rows()`. -/
def Mat.Rows (m : Mat) : Int := m.size.1

/-- The number of columns `Mat.Cols()`. -/
def Mat.Cols (m : Mat) : Int := m.size.2

/-- The destination corners and the size `image.Pt(w, h)` of the warp an image came from,
looking through `Transpose` and `Flip`. -/
def Mat.warpRequest : Mat → Option (List Point × Int × Int)
  | .warp _ _ ptsstd w h => some (ptsstd, w, h)
  | .transpose m => m.warpRequest
  | .flip m _ => m.warpRequest
  | _ => none

/-- The bounds `left, right, top, bottom` of core.go lines 103-106. -/
def cropBounds (box : Box) : Int × Int × Int × Int :=
  let boxX := [box.p0.x, box.p1.x, box.p2.x, box.p3.x]
  let boxY := [box.p0.y, box.p1.y, box.p2.y, box.p3.y]
  (mini boxX, maxi boxX, mini boxY, maxi boxY)

/-- One iteration of the loop of core.go lines 108-111 on a corner:
`box[i][0] -= left; box[i][1] -= top`, in exact arithmetic (`Point.shift64` is the same step
in Go's `int` arithmetic; the two agree while the region spans less than `2^63`). -/
def Point.shift (p : Point) (left top : Int) : Point := ⟨p.x - left, p.y - top⟩

/-- The region after the loop of core.go lines 108-111 has run over its four corners. -/
def translateBox (box : Box) (left top : Int) : Box :=
  ⟨box.p0.shift left top, box.p1.shift left top, box.p2.shift left top, box.p3.shift left top⟩

/-- The expression `int(math.Sqrt(math.Pow(float64(dx), 2) + math.Pow(float64(dy), 2)))` of
core.go lines 113-114 for the corners `p` and `q`, in exact arithmetic: the integer square
root of the squared distance. The float64 computation `edgeLenF64` returns this value
whenever the squared distance is below `2^52` (`edgeLenF64_eq_edgeLen`), and on every
axis-aligned edge inside an image. -/
def edgeLen (p q : Point) : Int :=
  (Nat.sqrt (((p.x - q.x) ^ 2 + (p.y - q.y) ^ 2).toNat) : Int)

/-- The float64 nearest to the natural number `n`, rounding to nearest and ties to even:
numbers below `2^53` are exact, larger ones keep 53 leading bits. -/
def roundF64 (n : Nat) : Nat :=
  if n < 2 ^ 53 then n
  else
    let sh := Nat.log 2 n - 52
    let q := n / 2 ^ sh
    let rem := n % 2 ^ sh
    if 2 ^ (sh - 1) < rem ∨ (rem = 2 ^ (sh - 1) ∧ q % 2 = 1) then (q + 1) * 2 ^ sh
    else q * 2 ^ sh

/-- The conversion `float64(d)` of an `int`; the float64 holds an integer. -/
def floatOfInt (d : Int) : Int := d.sign * (roundF64 d.natAbs : Int)

/-- The call `math.Pow(x, 2)` on a float64 holding the integer `x`: Go's portable `Pow`
squares the mantissa with one multiplication, which yields the correctly rounded square. -/
def powTwoF64 (x : Int) : Nat := roundF64 (x.natAbs ^ 2)

/-- The 53-bit mantissa of the correctly rounded square root of `s`, at scale `2^t`: the
integer nearest to `sqrt(s) * 2^t` (a tie cannot occur). -/
def sqrtMantissa (s t : Nat) : Nat :=
  if (2 * Nat.sqrt (s * 4 ^ t) + 1) ^ 2 < 4 * (s * 4 ^ t) then Nat.sqrt (s * 4 ^ t) + 1
  else Nat.sqrt (s * 4 ^ t)

/-- The mantissa of the correctly rounded square root of `s` when the floats near it are
`2^t` apart (`t ≥ 1`): the multiple of `2^t` nearest to `sqrt(s)`, ties to even. -/
def sqrtMantissaCoarse (s t : Nat) : Nat :=
  if (2 * (Nat.sqrt s / 2 ^ t) + 1) ^ 2 * 4 ^ (t - 1) < s ∨
      ((2 * (Nat.sqrt s / 2 ^ t) + 1) ^ 2 * 4 ^ (t - 1) = s ∧ (Nat.sqrt s / 2 ^ t) % 2 = 1) then
    Nat.sqrt s / 2 ^ t + 1
  else Nat.sqrt s / 2 ^ t

/-- The call `math.Sqrt(s)` on a float64 holding the natural number `s`: the correctly
rounded square root. With `2^e ≤ sqrt(s) < 2^(e+1)` the floats near the root are
`2^(e-52)` apart. -/
def sqrtF64 (s : Nat) : ℚ :=
  if s = 0 then 0
  else if Nat.log 2 (Nat.sqrt s) ≤ 52 then
    (sqrtMantissa s (52 - Nat.log 2 (Nat.sqrt s)) : ℚ) / 2 ^ (52 - Nat.log 2 (Nat.sqrt s))
  else
    (sqrtMantissaCoarse s (Nat.log 2 (Nat.sqrt s) - 52) : ℚ) *
      2 ^ (Nat.log 2 (Nat.sqrt s) - 52)

/-- The conversion `int(f)` of a float64: truncation toward zero; `none` when the truncated
value does not fit a 64-bit `int` (Go leaves that result to the implementation). -/
def truncInt (f : ℚ) : Option Int :=
  if -9223372036854775808 ≤ (if 0 ≤ f then ⌊f⌋ else ⌈f⌉) ∧
      (if 0 ≤ f then ⌊f⌋ else ⌈f⌉) < 9223372036854775808 then
    some (if 0 ≤ f then ⌊f⌋ else ⌈f⌉)
  else none

/-- The expression `int(math.Sqrt(math.Pow(float64(dx), 2) + math.Pow(float64(dy), 2)))` of
core.go lines 113-114 for the corners `p` and `q`, operation by operation in float64
arithmetic (`int` subtraction, conversion, two squares, their sum, square root,
truncation). -/
def edgeLenF64 (p q : Point) : Option Int :=
  truncInt (sqrtF64 (roundF64 (powTwoF64 (floatOfInt (wrapInt (p.x - q.x))) +
    powTwoF64 (floatOfInt (wrapInt (p.y - q.y))))))

/-- One iteration of the loop of core.go lines 108-111 on a corner, in Go's `int`
arithmetic. -/
def Point.shift64 (p : Point) (left top : Int) : Point :=
  ⟨wrapInt (p.x - left), wrapInt (p.y - top)⟩

/-- The region after lines 103-111, in Go's `int` arithmetic. -/
def cropLocal64 (box : Box) : Box :=
  ⟨box.p0.shift64 (cropBounds box).1 (cropBounds box).2.2.1,
    box.p1.shift64 (cropBounds box).1 (cropBounds box).2.2.1,
    box.p2.shift64 (cropBounds box).1 (cropBounds box).2.2.1,
    box.p3.shift64 (cropBounds box).1 (cropBounds box).2.2.1⟩

/-- The target width `cropW` of core.go line 113 in Go's `int` and float64 arithmetic. -/
def cropWF64 (box : Box) : Option Int := edgeLenF64 (cropLocal64 box).p0 (cropLocal64 box).p1

/-- The target height `cropH` of core.go line 114 in Go's `int` and float64 arithmetic. -/
def cropHF64 (box : Box) : Option Int := edgeLenF64 (cropLocal64 box).p0 (cropLocal64 box).p3

/-- Lines 107 and 113-139 of `getRotateCropImage`, run on the already translated `box`.
The test `float64(Rows) >= float64(Cols)*1.5` is carried out in the rationals. -/
def warpCrop (img : Mat) (bounds : Int × Int × Int × Int) (box : Box) : Mat :=
  let (left, right, top, bottom) := bounds
  let cropimg := Mat.region img left top right bottom
  let cropW := edgeLen box.p0 box.p1
  let cropH := edgeLen box.p0 box.p3
  let ptsstd : List Point := [⟨0, 0⟩, ⟨cropW, 0⟩, ⟨cropW, cropH⟩, ⟨0, cropH⟩]
  let points : List Point := [box.p0, box.p1, box.p2, box.p3]
  let dstimg := Mat.warp cropimg points ptsstd cropW cropH
  if (dstimg.Rows : ℚ) ≥ (dstimg.Cols : ℚ) * 1.5 then
    Mat.flip (Mat.transpose dstimg) 0
  else dstimg

/-- The region as `getRotateCropImage` holds it after lines 103-111: translated by
`(left, top)`. -/
def cropLocal (box : Box) : Box :=
  translateBox box (cropBounds box).1 (cropBounds box).2.2.1

/-- The target width `cropW` of core.go line 113, for the region passed in. -/
def cropW (box : Box) : Int := edgeLen (cropLocal box).p0 (cropLocal box).p1

/-- The target height `cropH` of core.go line 114, for the region passed in. -/
def cropH (box : Box) : Int := edgeLen (cropLocal box).p0 (cropLocal box).p3

/-- The method `getRotateCropImage` (core.go lines 102-140), on the coordinates of `box`, with
the edge lengths in exact arithmetic (`cropW`, `cropH`). -/
def getRotateCropImage (img : Mat) (box : Box) : Mat :=
  warpCrop img (cropBounds box) (cropLocal box)

/-! ## getRotateCropImage on Go's slices

A `[][]int` is a slice of row headers; each header points at the backing array of one
`[]int` corner. `copy(tmpbox, boxes[i])` copies the headers, not the backing arrays. -/

/-- The backing arrays of the `[]int` corners, by address. -/
abbrev Heap := List Point

/-- A `[][]int` region as Go holds it: the addresses of its four rows. -/
structure BoxRef where
  r0 : Nat
  r1 : Nat
  r2 : Nat
  r3 : Nat
deriving DecidableEq, Repr

/-- The row addresses of a region, in the order of its corners. -/
def BoxRef.rows (b : BoxRef) : List Nat := [b.r0, b.r1, b.r2, b.r3]

/-- The row addresses of a list of regions. -/
def allRows : List BoxRef → List Nat
  | [] => []
  | b :: rest => b.rows ++ allRows rest

/-- The row stored at an address. -/
def Heap.row (h : Heap) (a : Nat) : Point := h.getD a ⟨0, 0⟩

/-- The coordinates a `[][]int` currently shows. -/
def readBox (h : Heap) (b : BoxRef) : Box := ⟨h.row b.r0, h.row b.r1, h.row b.r2, h.row b.r3⟩

/-- The loop of core.go lines 108-111 over the rows of `box`, writing through each row
header. -/
def translateRows (left top : Int) : List Nat → Heap → Heap
  | [], h => h
  | a :: rest, h => translateRows left top rest (h.set a ((h.row a).shift left top))

/-- The method `getRotateCropImage` on a `[][]int` argument: the image returned and the heap
it leaves behind. -/
def getRotateCropImageMem (img : Mat) (h : Heap) (box : BoxRef) : Mat × Heap :=
  let bounds := cropBounds (readBox h box)
  let h1 := translateRows bounds.1 bounds.2.2.1 box.rows h
  (warpCrop img bounds (readBox h1 box), h1)

/-- The statements `tmpbox := make([][]int, len(boxes[i])); copy(tmpbox, boxes[i])` of
core.go lines 155-156: a new outer slice holding the same four row headers. -/
def copyBox (b : BoxRef) : BoxRef := ⟨b.r0, b.r1, b.r2, b.r3⟩

/-- The loop of `Run` (core.go lines 154-159) over `boxes`: the crops in order, and the heap
afterwards. -/
def cropLoop (srcimg : Mat) : List BoxRef → Heap → List Mat × Heap
  | [], h => ([], h)
  | b :: rest, h =>
    let tmpbox := copyBox b
    let r := getRotateCropImageMem srcimg h tmpbox
    let rs := cropLoop srcimg rest r.2
    (r.1 :: rs.1, rs.2)

/-! ## sortBoxes on Go's slices -/

/-- A routine that sorts a slice of regions in place, given the comparator: the role of the
library's `sort.Slice`. -/
abbrev SliceSort := (BoxRef → BoxRef → Bool) → List BoxRef → List BoxRef

/-- The loop of core.go lines 94-98 on the slice of regions as Go holds it; the coordinates
are read through the row headers. -/
def bubbleMem (h : Heap) (cur : BoxRef) : List BoxRef → List BoxRef
  | [] => [cur]
  | nxt :: rest =>
    if swapCond (readBox h cur) (readBox h nxt) then nxt :: bubbleMem h cur rest
    else cur :: bubbleMem h nxt rest

/-- The single corrective pass (core.go lines 94-98) on the slice of regions as Go holds
it. -/
def correctivePassMem (h : Heap) : List BoxRef → List BoxRef
  | [] => []
  | b :: rest => bubbleMem h b rest

/-- The method `sortBoxes` (core.go lines 83-100) on the slice of regions as Go holds it, with
`sortSliceFn` standing for the library's `sort.Slice`. Only the outer slice is permuted; the
rows stay where they are. -/
def sortBoxesMem (sortSliceFn : SliceSort) (h : Heap) (boxes : List BoxRef) : List BoxRef :=
  correctivePassMem h (sortSliceFn (fun a b => lessBox (readBox h a) (readBox h b)) boxes)

/-! ## Run -/

/-- The collaborators of the pipeline: `detector.Run`, the optional `cls.Run` (a nil `cls`
is `none`) and `rec.Run` (the field `recognizer`). The detector returns its `[][][]int` as
the heap of rows and the slice of regions. The type `OCRText` of results is left to the
recognizer. -/
structure TextPredictSystem (OCRText : Type) where
  detector : Mat → Heap × List BoxRef
  cls : Option (List Mat → List Mat)
  recognizer : List Mat → List OCRText

/-- A call made by `Run`, with its arguments. -/
inductive Call where
  | detect (img : Mat)
  | rectify (img : Mat) (box : BoxRef)
  | classify (batch : List Mat)
  | recognize (batch : List Mat)
deriving DecidableEq, Repr

/-- The regions in the order in which `Run` rectifies them: `sortBoxes(boxes)` of core.go
line 152. -/
def sortedBoxes {OCRText : Type} (sortSliceFn : SliceSort) (sys : TextPredictSystem OCRText)
    (img : Mat) : List BoxRef :=
  sortBoxesMem sortSliceFn (sys.detector img).1 (sys.detector img).2

/-- The slice `cropimages` once the loop of core.go lines 154-159 has run. -/
def cropBatch {OCRText : Type} (sortSliceFn : SliceSort) (sys : TextPredictSystem OCRText)
    (img : Mat) : List Mat :=
  (cropLoop img (sortedBoxes sortSliceFn sys img) (sys.detector img).1).1

/-- The method `Run` (core.go lines 142-165): the result, and the calls made in order.
`sortSliceFn` stands for the library's `sort.Slice`; `srcimg` is the copy of `img` taken
before detection. -/
def Run {OCRText : Type} (sortSliceFn : SliceSort) (sys : TextPredictSystem OCRText)
    (img : Mat) : List OCRText × List Call :=
  let result : List OCRText := []
  let srcimg := img
  let boxes := (sys.detector img).2
  let t0 := [Call.detect img]
  if boxes.length = 0 then (result, t0)
  else
    let boxes := sortedBoxes sortSliceFn sys img
    let cropimages := cropBatch sortSliceFn sys srcimg
    let t1 := t0 ++ boxes.map (fun b => Call.rectify srcimg (copyBox b))
    match sys.cls with
    | some cls =>
      let cropimages2 := cls cropimages
      (sys.recognizer cropimages2, t1 ++ [Call.classify cropimages, Call.recognize cropimages2])
    | none => (sys.recognizer cropimages, t1 ++ [Call.recognize cropimages])

/-! ## Sample inputs -/

/-- The axis-aligned rectangle `[(x0,y0), (x1,y0), (x1,y1), (x0,y1)]`. -/
def rectBox (x0 y0 x1 y1 : Int) : Box := ⟨⟨x0, y0⟩, ⟨x1, y0⟩, ⟨x1, y1⟩, ⟨x0, y1⟩⟩

/-- The rows a detector allocates for a list of regions: four fresh rows per region. -/
def rowsOf : List Box → Heap
  | [] => []
  | b :: rest => b.p0 :: b.p1 :: b.p2 :: b.p3 :: rowsOf rest

/-- The row headers of the regions allocated from address `base` on. -/
def refsFrom (base : Nat) : List Box → List BoxRef
  | [] => []
  | _ :: rest => ⟨base, base + 1, base + 2, base + 3⟩ :: refsFrom (base + 4) rest

/-- A detection result in which every region has its own four rows. -/
def freshDetection (boxes : List Box) : Heap × List BoxRef := (rowsOf boxes, refsFrom 0 boxes)

/-- A pipeline for trying `Run`: the detector reports three rectangles (out of reading
order), the classifier flips every crop, and the recognizer reports each crop's size
`(Cols, Rows)`. -/
def sizeSystem : TextPredictSystem (Int × Int) :=
  { detector := fun _ =>
      freshDetection [rectBox 60 0 100 20, rectBox 0 40 30 60, rectBox 0 0 50 20]
    cls := some (List.map (fun m => Mat.flip m (-1)))
    recognizer := List.map (fun m => (m.Cols, m.Rows)) }

/-- A pipeline whose detector finds nothing. -/
def blindSystem : TextPredictSystem (Int × Int) :=
  { detector := fun _ => ([], [])
    cls := some (List.map (fun m => Mat.flip m (-1)))
    recognizer := List.map (fun m => (m.Cols, m.Rows)) }

/-- A heap holding the four corners `(10,20), (60,20), (60,70), (10,70)` of one detected
region at the addresses 0 to 3. -/
def oneRegionHeap : Heap := [⟨10, 20⟩, ⟨60, 20⟩, ⟨60, 70⟩, ⟨10, 70⟩]

/-- The warp `getRotateCropImage` requests for the axis-aligned rectangle
`[(x0,y0), (x1,y0), (x1,y1), (x0,y1)]`: source corners and destination corners coincide. -/
def rectWarp (img : Mat) (x0 y0 x1 y1 : Int) : Mat :=
  Mat.warp (Mat.region img x0 y0 x1 y1)
    [⟨0, 0⟩, ⟨x1 - x0, 0⟩, ⟨x1 - x0, y1 - y0⟩, ⟨0, y1 - y0⟩]
    [⟨0, 0⟩, ⟨x1 - x0, 0⟩, ⟨x1 - x0, y1 - y0⟩, ⟨0, y1 - y0⟩] (x1 - x0) (y1 - y0)

/-- Two regions at the two ends of the range of a 64-bit `int`: first corners
`(y = -2^63, x = 5)` and `(y = 2^63 - 1, x = 1)`. -/
def overflowPair : List Box :=
  [boxAt 5 (-9223372036854775808), boxAt 1 9223372036854775807]

/-- Three regions of one 10-pixel band, given by their first corners
`(y=0,x=30)`, `(y=1,x=20)`, `(y=2,x=10)`. -/
def bandOfThree : List Box := [boxAt 30 0, boxAt 20 1, boxAt 10 2]

/-- A region whose top edge runs from `(0,0)` to `(2,2)` and whose left edge from `(0,0)` to
`(0,3)`. -/
def skewBox : Box := ⟨⟨0, 0⟩, ⟨2, 2⟩, ⟨2, 5⟩, ⟨0, 3⟩⟩

/-! ## Facts about the sort -/

theorem sinkLeft_perm {α : Type} (less : α → α → Bool) (x : α) (rp : List α) :
    (sinkLeft less x rp).Perm (x :: rp) := by
  induction rp with
  | nil => simp [sinkLeft]
  | cons p rp ih =>
    by_cases hlt : less x p = true
    · simp only [sinkLeft, hlt, if_true]
      exact (List.Perm.cons p ih).trans (List.Perm.swap x p rp)
    · simp [sinkLeft, hlt]

theorem foldl_sinkLeft_perm {α : Type} (less : α → α → Bool) (l acc : List α) :
    (l.foldl (fun rp x => sinkLeft less x rp) acc).Perm (l ++ acc) := by
  induction l generalizing acc with
  | nil => simp
  | cons a l ih =>
    simp only [List.foldl_cons, List.cons_append]
    refine (ih (sinkLeft less a acc)).trans ?_
    refine (List.Perm.append_left l (sinkLeft_perm less a acc)).trans ?_
    exact List.perm_middle

theorem sortSlice_perm {α : Type} (less : α → α → Bool) (l : List α) :
    (sortSlice less l).Perm l := by
  unfold sortSlice
  refine (List.reverse_perm _).trans ?_
  simpa using foldl_sinkLeft_perm less l []

theorem sinkLeft_pairwise {α : Type} (less : α → α → Bool)
    (hasym : ∀ a b, less a b = true → less b a = false)
    (htr : ∀ a b c, less a b = false → less b c = false → less a c = false)
    (x : α) (rp : List α) (h : rp.Pairwise (fun a b => less a b = false)) :
    (sinkLeft less x rp).Pairwise (fun a b => less a b = false) := by
  induction rp with
  | nil => simp [sinkLeft]
  | cons p rp ih =>
    rw [List.pairwise_cons] at h
    by_cases hlt : less x p = true
    · simp only [sinkLeft, hlt, if_true]
      rw [List.pairwise_cons]
      refine ⟨fun z hz => ?_, ih h.2⟩
      rcases (sinkLeft_perm less x rp).mem_iff.mp hz with hz | hz
      · exact hasym x p hlt
      · exact h.1 z (by assumption)
    · have hxp : less x p = false := by simpa using hlt
      simp only [sinkLeft, hxp]
      refine List.Pairwise.cons (fun z hz => ?_) (List.Pairwise.cons h.1 h.2)
      rcases List.mem_cons.mp hz with hz | hz
      · rw [hz]; exact hxp
      · exact htr x p z hxp (h.1 z hz)

theorem foldl_sinkLeft_pairwise {α : Type} (less : α → α → Bool)
    (hasym : ∀ a b, less a b = true → less b a = false)
    (htr : ∀ a b c, less a b = false → less b c = false → less a c = false)
    (l acc : List α) (h : acc.Pairwise (fun a b => less a b = false)) :
    (l.foldl (fun rp x => sinkLeft less x rp) acc).Pairwise (fun a b => less a b = false) := by
  induction l generalizing acc with
  | nil => simpa using h
  | cons a l ih => exact ih _ (sinkLeft_pairwise less hasym htr a acc h)

/-- The slice `sort.Slice` leaves behind is sorted: no element is less than one before it. -/
theorem sortSlice_sorted {α : Type} (less : α → α → Bool)
    (hasym : ∀ a b, less a b = true → less b a = false)
    (htr : ∀ a b c, less a b = false → less b c = false → less a c = false)
    (l : List α) : (sortSlice less l).Pairwise (fun a b => less b a = false) := by
  unfold sortSlice
  rw [List.pairwise_reverse]
  exact foldl_sinkLeft_pairwise less hasym htr l [] List.Pairwise.nil

theorem lessBox_iff (a b : Box) :
    lessBox a b = true ↔ a.y < b.y ∨ (a.y = b.y ∧ a.x < b.x) := by
  unfold lessBox
  split_ifs with h1 h2
  · simp [h1]
  · simp only [Bool.false_eq_true, false_iff]; omega
  · simp only [decide_eq_true_eq]; omega

theorem lessBox_false_iff (a b : Box) :
    lessBox a b = false ↔ b.y < a.y ∨ (a.y = b.y ∧ b.x ≤ a.x) := by
  rw [← Bool.not_eq_true, lessBox_iff]; omega

theorem lessBox_asymm (a b : Box) (h : lessBox a b = true) : lessBox b a = false := by
  rw [lessBox_iff] at h; rw [lessBox_false_iff]; omega

theorem lessBox_neg_trans (a b c : Box) (h1 : lessBox a b = false) (h2 : lessBox b c = false) :
    lessBox a c = false := by
  rw [lessBox_false_iff] at *; omega

theorem sortSlice_lessBox_sorted (boxes : List Box) :
    (sortSlice lessBox boxes).Pairwise (fun a b => lessBox b a = false) :=
  sortSlice_sorted lessBox lessBox_asymm lessBox_neg_trans boxes

/-- Any sorted permutation of `boxes` is the list `sortSlice` returns, as soon as no two
different regions of `boxes` share their first corner: on such inputs the outcome of
`sort.Slice` does not depend on the sorting algorithm. -/
theorem sortSlice_unique (boxes s : List Box)
    (hkey : ∀ a ∈ boxes, ∀ b ∈ boxes, a.p0 = b.p0 → a = b)
    (hp : s.Perm boxes) (hs : s.Pairwise (fun a b => lessBox b a = false)) :
    s = sortSlice lessBox boxes := by
  refine List.Perm.eq_of_sorted ?_ hs (sortSlice_lessBox_sorted boxes)
    (hp.trans (sortSlice_perm lessBox boxes).symm)
  intro a b ha hb h1 h2
  have ha2 : a ∈ boxes := hp.subset ha
  have hb2 : b ∈ boxes := (sortSlice_perm lessBox boxes).subset hb
  refine hkey a ha2 b hb2 ?_
  rw [lessBox_false_iff] at h1 h2
  have hx : a.p0.x = b.p0.x := by
    simp only [Box.x, Box.y] at h1 h2; omega
  have hy : a.p0.y = b.p0.y := by
    simp only [Box.x, Box.y] at h1 h2; omega
  cases hpa : a.p0
  cases hpb : b.p0
  rw [hpa] at hx hy
  rw [hpb] at hx hy
  simp only at hx hy
  rw [hx, hy]

/-! ## Facts about the corrective pass -/

theorem bubble_perm (cur : Box) (rest : List Box) : (bubble cur rest).Perm (cur :: rest) := by
  induction rest generalizing cur with
  | nil => simp [bubble]
  | cons nxt rest ih =>
    by_cases hs : swapCond cur nxt = true
    · simp only [bubble, hs, if_true]
      exact (List.Perm.cons nxt (ih cur)).trans (List.Perm.swap cur nxt rest)
    · simp only [bubble, hs, if_false, Bool.false_eq_true]
      exact List.Perm.cons cur (ih nxt)

theorem correctivePass_perm (l : List Box) : (correctivePass l).Perm l := by
  cases l with
  | nil => simp [correctivePass]
  | cons b rest => exact bubble_perm b rest

theorem wrapInt_of_small (v : Int) (h : |v| < 9223372036854775808) : wrapInt v = v := by
  rw [abs_lt] at h
  unfold wrapInt
  omega

theorem swapCond_false_of_gap (a b : Box)
    (h : a.y + 10 ≤ b.y ∧ b.y - a.y ≤ 18446744073709551606) : swapCond a b = false := by
  unfold swapCond
  have : ¬ |wrapInt (b.y - a.y)| < 10 := by
    rw [abs_lt]; unfold wrapInt; omega
  simp [this]

theorem bubble_of_gaps (cur : Box) (rest : List Box)
    (h : (cur :: rest).Pairwise
      (fun a b => a.y + 10 ≤ b.y ∧ b.y - a.y ≤ 18446744073709551606)) :
    bubble cur rest = cur :: rest := by
  induction rest generalizing cur with
  | nil => simp [bubble]
  | cons nxt rest ih =>
    rw [List.pairwise_cons] at h
    have hs : swapCond cur nxt = false :=
      swapCond_false_of_gap cur nxt (h.1 nxt (List.mem_cons_self _ _))
    simp only [bubble, hs, Bool.false_eq_true, if_false]
    rw [ih nxt h.2]

theorem correctivePass_of_gaps (l : List Box)
    (h : l.Pairwise (fun a b => a.y + 10 ≤ b.y ∧ b.y - a.y ≤ 18446744073709551606)) :
    correctivePass l = l := by
  cases l with
  | nil => rfl
  | cons b rest => exact bubble_of_gaps b rest h

/-! ## sortBoxes: the claims -/

/-- C1: `sortBoxes` returns a permutation of its input: same length, and every region occurs
in the output as often as in the input, so neither the key sort nor the adjacent-swap pass
drops or duplicates a region. -/
theorem sortBoxes_permutation (boxes : List Box) :
    (sortBoxes boxes).Perm boxes ∧ (sortBoxes boxes).length = boxes.length ∧
      ∀ b : Box, (sortBoxes boxes).count b = boxes.count b := by
  have hp : (sortBoxes boxes).Perm boxes :=
    (correctivePass_perm _).trans (sortSlice_perm lessBox boxes)
  exact ⟨hp, hp.length_eq, fun b => hp.count_eq b⟩

/-- C5: for two regions `A`, `B` whose first-corner y-coordinates differ by less than 10 and
with `x(B) < x(A)`, `sortBoxes` returns `[B, A]` on `[A, B]` and on `[B, A]`: the region with
the smaller x comes first, also when it has the larger y. -/
theorem sortBoxes_pair_same_band (A B : Box) (hy : |A.y - B.y| < 10) (hx : B.x < A.x) :
    sortBoxes [A, B] = [B, A] ∧ sortBoxes [B, A] = [B, A] := by
  have hBA : swapCond B A = false := by
    unfold swapCond
    have : ¬ A.x < B.x := by omega
    simp [this]
  have hAB : swapCond A B = true := by
    unfold swapCond
    have : |wrapInt (B.y - A.y)| < 10 := by
      rw [wrapInt_of_small]
      · rw [abs_sub_comm]; exact hy
      · rw [abs_sub_comm]; exact lt_trans hy (by norm_num)
    simp [this, hx]
  by_cases hlt : lessBox B A = true
  · have hlt2 : lessBox A B = false := lessBox_asymm B A hlt
    simp [sortBoxes, sortSlice, sinkLeft, correctivePass, bubble, hlt, hlt2, hBA]
  · have hlt1 : lessBox B A = false := by simpa using hlt
    have hlt2 : lessBox A B = true := by
      rw [lessBox_false_iff] at hlt1
      rw [lessBox_iff]
      omega
    simp [sortBoxes, sortSlice, sinkLeft, correctivePass, bubble, hlt1, hlt2, hAB]

/-- Witness of C5 on `A = (y=100, x=50)`, `B = (y=104, x=20)`. -/
theorem sortBoxes_pair_same_band_witness :
    |(boxAt 50 100).y - (boxAt 20 104).y| < 10 ∧ (boxAt 20 104).x < (boxAt 50 100).x ∧
      (sortBoxes [boxAt 50 100, boxAt 20 104] = [boxAt 20 104, boxAt 50 100] ∧
        sortBoxes [boxAt 20 104, boxAt 50 100] = [boxAt 20 104, boxAt 50 100]) :=
  ⟨by decide, by decide,
    sortBoxes_pair_same_band (boxAt 50 100) (boxAt 20 104) (by decide) (by decide)⟩

/-- C6, as the claim states it, fails: the regions with first corners
`(y = -2^63, x = 5)` and `(y = 2^63 - 1, x = 1)` differ in y by far more than 10, yet Go's
`int` subtraction of the two y-values wraps to `-1`, the corrective pass swaps them, and the
output is neither the key-sorted sequence nor ascending by y. -/
theorem sortBoxes_overflow_swap :
    overflowPair.Pairwise (fun a b => 10 ≤ |a.y - b.y|) ∧
      sortSlice lessBox overflowPair =
        [boxAt 5 (-9223372036854775808), boxAt 1 9223372036854775807] ∧
      sortBoxes overflowPair =
        [boxAt 1 9223372036854775807, boxAt 5 (-9223372036854775808)] ∧
      ¬ (sortBoxes overflowPair = sortSlice lessBox overflowPair ∧
        (sortBoxes overflowPair).Pairwise (fun a b => a.y < b.y)) := by
  refine ⟨by decide, by decide, by decide, by decide⟩

/-- C6, amended: when the first-corner y-coordinates of the regions pairwise differ by at
least 10 and by at most `2^64 - 10` (so that the 64-bit subtraction of two of them cannot
wrap into the 10-pixel band), whatever the x-coordinates, the corrective pass swaps nothing,
so `sortBoxes` returns the key-sorted sequence, and that sequence is strictly ascending by
first-corner y. -/
theorem sortBoxes_distinct_bands (boxes : List Box)
    (hgap : boxes.Pairwise
      (fun a b => 10 ≤ |a.y - b.y| ∧ |a.y - b.y| ≤ 18446744073709551606)) :
    sortBoxes boxes = sortSlice lessBox boxes ∧
      (sortBoxes boxes).Pairwise (fun a b => a.y < b.y) := by
  have hsym : Symmetric
      (fun a b : Box => 10 ≤ |a.y - b.y| ∧ |a.y - b.y| ≤ 18446744073709551606) := by
    intro a b h
    rw [abs_sub_comm]; exact h
  have hgap2 : (sortSlice lessBox boxes).Pairwise
      (fun a b => 10 ≤ |a.y - b.y| ∧ |a.y - b.y| ≤ 18446744073709551606) :=
    ((sortSlice_perm lessBox boxes).pairwise_iff (fun {a b} h => hsym h)).mpr hgap
  have hasc : (sortSlice lessBox boxes).Pairwise
      (fun a b => a.y + 10 ≤ b.y ∧ b.y - a.y ≤ 18446744073709551606) := by
    refine ((sortSlice_lessBox_sorted boxes).and hgap2).imp ?_
    intro a b h
    obtain ⟨h1, h2, h3⟩ := h
    rw [lessBox_false_iff] at h1
    rw [le_abs] at h2
    rw [abs_le] at h3
    omega
  have heq : sortBoxes boxes = sortSlice lessBox boxes := correctivePass_of_gaps _ hasc
  refine ⟨heq, ?_⟩
  rw [heq]
  exact hasc.imp (fun {a b} h => by omega)

/-- Witness of C6 on the y-values `[300, 50, 150]` (with x-values out of order). -/
theorem sortBoxes_distinct_bands_witness :
    [boxAt 1 300, boxAt 9 50, boxAt 5 150].Pairwise
        (fun a b => 10 ≤ |a.y - b.y| ∧ |a.y - b.y| ≤ 18446744073709551606) ∧
      sortBoxes [boxAt 1 300, boxAt 9 50, boxAt 5 150] = [boxAt 9 50, boxAt 5 150, boxAt 1 300] ∧
      (sortBoxes [boxAt 1 300, boxAt 9 50, boxAt 5 150] =
          sortSlice lessBox [boxAt 1 300, boxAt 9 50, boxAt 5 150] ∧
        (sortBoxes [boxAt 1 300, boxAt 9 50, boxAt 5 150]).Pairwise (fun a b => a.y < b.y)) :=
  ⟨by decide, by decide, sortBoxes_distinct_bands _ (by decide)⟩

/-- C10: the corrective pass runs once and does not reach a fixed point. The three regions
`(y=0,x=30)`, `(y=1,x=20)`, `(y=2,x=10)` lie within 10 pixels of each other in y, and the
output of `sortBoxes` on them still has an adjacent pair `i, i+1` with
`|y(i+1) - y(i)| < 10` and `x(i+1) < x(i)`; a second pass would change it. -/
theorem sortBoxes_single_pass_incomplete :
    bandOfThree.length = 3 ∧
      (∀ a ∈ bandOfThree, ∀ b ∈ bandOfThree, |a.y - b.y| < 10) ∧
      sortBoxes bandOfThree = [boxAt 20 1, boxAt 10 2, boxAt 30 0] ∧
      (∃ (i : Nat) (a b : Box), (sortBoxes bandOfThree)[i]? = some a ∧
        (sortBoxes bandOfThree)[i + 1]? = some b ∧ |b.y - a.y| < 10 ∧ b.x < a.x) ∧
      correctivePass (sortBoxes bandOfThree) ≠ sortBoxes bandOfThree := by
  refine ⟨rfl, by decide, by decide, ⟨0, boxAt 20 1, boxAt 10 2, by decide, by decide, by decide, by decide⟩,
    by decide⟩

/-! ## Facts about the rectification geometry -/

theorem edgeLen_shift (p q : Point) (left top : Int) :
    edgeLen (p.shift left top) (q.shift left top) = edgeLen p q := by
  simp [edgeLen, Point.shift]

theorem cropW_eq (box : Box) : cropW box = edgeLen box.p0 box.p1 := by
  simp [cropW, cropLocal, translateBox, edgeLen_shift]

theorem cropH_eq (box : Box) : cropH box = edgeLen box.p0 box.p3 := by
  simp [cropH, cropLocal, translateBox, edgeLen_shift]

theorem sq_sum_nonneg (p q : Point) : 0 ≤ (p.x - q.x) ^ 2 + (p.y - q.y) ^ 2 := by positivity

theorem edgeLen_eq_floor (p q : Point) :
    edgeLen p q = ⌊Real.sqrt ((((p.x - q.x) ^ 2 + (p.y - q.y) ^ 2 : Int) : ℝ))⌋ := by
  have h := sq_sum_nonneg p q
  have hc : ((((p.x - q.x) ^ 2 + (p.y - q.y) ^ 2 : Int) : ℝ)) =
      ((((p.x - q.x) ^ 2 + (p.y - q.y) ^ 2).toNat : ℕ) : ℝ) := by
    have := Int.toNat_of_nonneg h
    exact_mod_cast this.symm
  rw [hc, Real.floor_real_sqrt_eq_nat_sqrt]
  rfl

theorem edgeLen_nonneg (p q : Point) : 0 ≤ edgeLen p q := by
  unfold edgeLen; exact Int.natCast_nonneg _

theorem edgeLen_pos_iff (p q : Point) : 1 ≤ edgeLen p q ↔ p ≠ q := by
  unfold edgeLen
  have h := sq_sum_nonneg p q
  have h1 : (1 : Int) ≤ (Nat.sqrt (((p.x - q.x) ^ 2 + (p.y - q.y) ^ 2).toNat) : Int) ↔
      0 < ((p.x - q.x) ^ 2 + (p.y - q.y) ^ 2).toNat := by
    rw [← Nat.sqrt_pos]; omega
  rw [h1]
  constructor
  · intro hpos hpq
    subst hpq
    simp at hpos
  · intro hne
    by_contra hz
    have hz0 : (p.x - q.x) ^ 2 + (p.y - q.y) ^ 2 = 0 := by omega
    have hx : (p.x - q.x) ^ 2 = 0 := by nlinarith [sq_nonneg (p.x - q.x), sq_nonneg (p.y - q.y)]
    have hy : (p.y - q.y) ^ 2 = 0 := by nlinarith [sq_nonneg (p.x - q.x), sq_nonneg (p.y - q.y)]
    have hx2 : p.x = q.x := by
      have := pow_eq_zero_iff (two_ne_zero) |>.mp hx
      omega
    have hy2 : p.y = q.y := by
      have := pow_eq_zero_iff (two_ne_zero) |>.mp hy
      omega
    apply hne
    cases p; cases q
    simp_all

theorem edgeLen_horizontal (x0 x1 y : Int) (h : x0 ≤ x1) :
    edgeLen ⟨x0, y⟩ ⟨x1, y⟩ = x1 - x0 := by
  unfold edgeLen
  have h2 : ((x0 - x1) ^ 2 + (y - y) ^ 2).toNat = (x1 - x0).toNat ^ 2 := by
    have h3 : (x0 - x1) ^ 2 + (y - y) ^ 2 = (((x1 - x0).toNat : Int)) ^ 2 := by
      rw [Int.toNat_of_nonneg (by omega)]; ring
    rw [h3]
    exact_mod_cast Int.toNat_natCast _
  rw [h2, Nat.sqrt_eq']
  exact Int.toNat_of_nonneg (by omega)

theorem edgeLen_vertical (x y0 y1 : Int) (h : y0 ≤ y1) :
    edgeLen ⟨x, y0⟩ ⟨x, y1⟩ = y1 - y0 := by
  unfold edgeLen
  have h2 : ((x - x) ^ 2 + (y0 - y1) ^ 2).toNat = (y1 - y0).toNat ^ 2 := by
    have h3 : (x - x) ^ 2 + (y0 - y1) ^ 2 = (((y1 - y0).toNat : Int)) ^ 2 := by
      rw [Int.toNat_of_nonneg (by omega)]; ring
    rw [h3]
    exact_mod_cast Int.toNat_natCast _
  rw [h2, Nat.sqrt_eq']
  exact Int.toNat_of_nonneg (by omega)

/-! ## The float64 computation of the edge lengths -/

theorem roundF64_of_lt (n : Nat) (h : n < 2 ^ 53) : roundF64 n = n := by
  unfold roundF64
  rw [if_pos h]

theorem wrapInt_shift (a b l : Int) :
    wrapInt (wrapInt (a - l) - wrapInt (b - l)) = wrapInt (a - b) := by
  unfold wrapInt
  omega

theorem edgeLenF64_shift64 (p q : Point) (left top : Int) :
    edgeLenF64 (p.shift64 left top) (q.shift64 left top) = edgeLenF64 p q := by
  simp only [edgeLenF64, Point.shift64, wrapInt_shift]

theorem cropWF64_eq (box : Box) : cropWF64 box = edgeLenF64 box.p0 box.p1 := by
  simp only [cropWF64, cropLocal64, edgeLenF64_shift64]

theorem cropHF64_eq (box : Box) : cropHF64 box = edgeLenF64 box.p0 box.p3 := by
  simp only [cropHF64, cropLocal64, edgeLenF64_shift64]

/-- The rounded mantissa stays inside the unit interval above the integer square root as long
as the floats below `sqrt s + 1` are at most `1 / (sqrt s + 1)` apart. -/
theorem sqrtMantissa_bounds (s t : Nat) (hk : Nat.sqrt s + 1 ≤ 2 ^ t) :
    Nat.sqrt s * 2 ^ t ≤ sqrtMantissa s t ∧ sqrtMantissa s t < (Nat.sqrt s + 1) * 2 ^ t := by
  have h4 : (4 : ℕ) ^ t = 2 ^ t * 2 ^ t := by
    rw [show (4 : ℕ) = 2 * 2 by norm_num, mul_pow]
  have hk1 : Nat.sqrt s * Nat.sqrt s ≤ s := Nat.sqrt_le s
  have hk2 : s + 1 ≤ (Nat.sqrt s + 1) * (Nat.sqrt s + 1) := Nat.succ_le_succ_sqrt s
  have hm1 : Nat.sqrt (s * 4 ^ t) * Nat.sqrt (s * 4 ^ t) ≤ s * 4 ^ t := Nat.sqrt_le _
  have ha : Nat.sqrt s * 2 ^ t ≤ Nat.sqrt (s * 4 ^ t) := by
    rw [Nat.le_sqrt, h4]
    calc Nat.sqrt s * 2 ^ t * (Nat.sqrt s * 2 ^ t)
        = (Nat.sqrt s * Nat.sqrt s) * (2 ^ t * 2 ^ t) := by ring
      _ ≤ s * (2 ^ t * 2 ^ t) := Nat.mul_le_mul_right _ hk1
  have hPP : 0 < 2 ^ t * 2 ^ t := by positivity
  have e1 : (s + 1) * (2 ^ t * 2 ^ t) ≤
      (Nat.sqrt s + 1) * (Nat.sqrt s + 1) * (2 ^ t * 2 ^ t) := Nat.mul_le_mul_right _ hk2
  have hb : Nat.sqrt (s * 4 ^ t) < (Nat.sqrt s + 1) * 2 ^ t := by
    rw [Nat.sqrt_lt, h4]
    calc s * (2 ^ t * 2 ^ t) < (s + 1) * (2 ^ t * 2 ^ t) := by
          exact Nat.mul_lt_mul_of_pos_right (Nat.lt_succ_self s) hPP
      _ ≤ (Nat.sqrt s + 1) * (Nat.sqrt s + 1) * (2 ^ t * 2 ^ t) := e1
      _ = (Nat.sqrt s + 1) * 2 ^ t * ((Nat.sqrt s + 1) * 2 ^ t) := by ring
  unfold sqrtMantissa
  split_ifs with hup
  · refine ⟨by omega, ?_⟩
    by_contra hcon
    have hA : Nat.sqrt (s * 4 ^ t) + 1 = (Nat.sqrt s + 1) * 2 ^ t := by omega
    rw [h4] at hup
    have e2 : (Nat.sqrt s + 1) * (Nat.sqrt s + 1) * (2 ^ t * 2 ^ t) =
        (Nat.sqrt (s * 4 ^ t) + 1) * (Nat.sqrt (s * 4 ^ t) + 1) := by
      rw [hA]; ring
    have e3 : (Nat.sqrt s + 1) * 2 ^ t ≤ 2 ^ t * 2 ^ t := Nat.mul_le_mul_right _ hk
    rw [h4] at hA
    nlinarith [e1, e2, e3, hup, hA]
  · exact ⟨ha, hb⟩

/-- Below `2^52` the float64 square root, truncated, is the integer square root. -/
theorem truncInt_sqrtF64 (s : Nat) (hs : s < 2 ^ 52) :
    truncInt (sqrtF64 s) = some (Nat.sqrt s : Int) := by
  by_cases h0 : s = 0
  · subst h0
    simp [sqrtF64, truncInt]
  · have hk26 : Nat.sqrt s < 2 ^ 26 := by
      rw [Nat.sqrt_lt']
      calc s < 2 ^ 52 := hs
        _ = (2 ^ 26) ^ 2 := by norm_num
    have hkpos : Nat.sqrt s ≠ 0 := by
      rw [Ne, Nat.sqrt_eq_zero]; exact h0
    have he : Nat.log 2 (Nat.sqrt s) < 26 := Nat.log_lt_of_lt_pow hkpos hk26
    have hkP : Nat.sqrt s + 1 ≤ 2 ^ (52 - Nat.log 2 (Nat.sqrt s)) := by
      have h1 := Nat.lt_pow_succ_log_self (by norm_num : 1 < 2) (Nat.sqrt s)
      calc Nat.sqrt s + 1 ≤ 2 ^ (Nat.log 2 (Nat.sqrt s)).succ := h1
        _ ≤ 2 ^ (52 - Nat.log 2 (Nat.sqrt s)) :=
          Nat.pow_le_pow_right (by norm_num) (by omega)
    obtain ⟨hlo, hhi⟩ := sqrtMantissa_bounds s (52 - Nat.log 2 (Nat.sqrt s)) hkP
    have hfloor : ⌊((sqrtMantissa s (52 - Nat.log 2 (Nat.sqrt s)) : ℚ) /
        2 ^ (52 - Nat.log 2 (Nat.sqrt s)))⌋ = (Nat.sqrt s : Int) := by
      rw [Int.floor_eq_iff]
      constructor
      · rw [le_div_iff₀ (by positivity)]
        exact_mod_cast hlo
      · rw [div_lt_iff₀ (by positivity)]
        exact_mod_cast hhi
    have hnn : (0 : ℚ) ≤ (sqrtMantissa s (52 - Nat.log 2 (Nat.sqrt s)) : ℚ) /
        2 ^ (52 - Nat.log 2 (Nat.sqrt s)) := by positivity
    have hle : Nat.log 2 (Nat.sqrt s) ≤ 52 := by omega
    have hr : -9223372036854775808 ≤ (Nat.sqrt s : Int) ∧
        (Nat.sqrt s : Int) < 9223372036854775808 := by
      have : Nat.sqrt s < 67108864 := by simpa using hk26
      omega
    simp only [sqrtF64, h0, if_false, hle, if_true, truncInt, hnn, hfloor, hr, and_self]

theorem sq_lt_two_pow_52 (d : Int) (h : d ^ 2 < 2 ^ 52) : |d| < 67108864 := by
  rw [abs_lt]
  constructor <;> nlinarith

/-- The float64 computation returns the exact integer square root whenever the squared
distance of the two corners is below `2^52`. -/
theorem edgeLenF64_eq_edgeLen (p q : Point)
    (h : (p.x - q.x) ^ 2 + (p.y - q.y) ^ 2 < 2 ^ 52) :
    edgeLenF64 p q = some (edgeLen p q) := by
  have hx2 : (p.x - q.x) ^ 2 < 2 ^ 52 := by nlinarith [sq_nonneg (p.y - q.y)]
  have hy2 : (p.y - q.y) ^ 2 < 2 ^ 52 := by nlinarith [sq_nonneg (p.x - q.x)]
  have hx := sq_lt_two_pow_52 _ hx2
  have hy := sq_lt_two_pow_52 _ hy2
  have wx : wrapInt (p.x - q.x) = p.x - q.x :=
    wrapInt_of_small _ (lt_trans hx (by norm_num))
  have wy : wrapInt (p.y - q.y) = p.y - q.y :=
    wrapInt_of_small _ (lt_trans hy (by norm_num))
  have key : ∀ d : Int, d ^ 2 < 2 ^ 52 → powTwoF64 (floatOfInt d) = d.natAbs ^ 2 := by
    intro d hd
    have hd1 := sq_lt_two_pow_52 d hd
    have hn : d.natAbs < 2 ^ 53 := by
      rw [abs_lt] at hd1; omega
    have hf : floatOfInt d = d := by
      rw [floatOfInt, roundF64_of_lt _ hn, Int.sign_mul_natAbs]
    rw [hf, powTwoF64]
    apply roundF64_of_lt
    have : ((d.natAbs ^ 2 : ℕ) : Int) < 2 ^ 53 := by
      push_cast
      rw [sq_abs]
      linarith
    exact_mod_cast this
  have hsum : (p.x - q.x).natAbs ^ 2 + (p.y - q.y).natAbs ^ 2 =
      ((p.x - q.x) ^ 2 + (p.y - q.y) ^ 2).toNat := by
    have : (((p.x - q.x).natAbs ^ 2 + (p.y - q.y).natAbs ^ 2 : ℕ) : Int) =
        (p.x - q.x) ^ 2 + (p.y - q.y) ^ 2 := by
      push_cast
      rw [sq_abs, sq_abs]
    omega
  have hlt : ((p.x - q.x) ^ 2 + (p.y - q.y) ^ 2).toNat < 2 ^ 52 := by
    have := sq_sum_nonneg p q
    omega
  rw [edgeLenF64, wx, wy, key _ hx2, key _ hy2, hsum,
    roundF64_of_lt _ (lt_trans hlt (by norm_num)), truncInt_sqrtF64 _ hlt]
  rfl

/-- Above `2^52` the two computations part: between the corners `(0,0)` and
`(67117698, 11586)` the squared distance is `67117699^2 - 1`, its float64 square root rounds
up to `67117699`, and the exact integer square root is `67117698`. -/
theorem edgeLenF64_above_bound :
    edgeLenF64 ⟨0, 0⟩ ⟨67117698, 11586⟩ = some 67117699 ∧
      edgeLen ⟨0, 0⟩ ⟨67117698, 11586⟩ = 67117698 := by
  have hs : Nat.sqrt 4504785519054600 = 67117698 :=
    (Nat.eq_sqrt.mpr ⟨by norm_num, by norm_num⟩).symm
  have hl : Nat.log 2 67117698 = 26 :=
    Nat.log_eq_of_pow_le_of_lt_pow (by norm_num) (by norm_num)
  have hm : Nat.sqrt (4504785519054600 * 4 ^ 26) = 4504192534183935 :=
    (Nat.eq_sqrt.mpr ⟨by norm_num, by norm_num⟩).symm
  have hM : sqrtMantissa 4504785519054600 26 = 4504192534183936 := by
    unfold sqrtMantissa
    rw [hm, if_pos (by norm_num)]
  have hq : sqrtF64 4504785519054600 = 67117699 := by
    unfold sqrtF64
    rw [if_neg (by norm_num), hs, hl, if_pos (by norm_num), hM]
    norm_num
  have hw1 : wrapInt ((0 : Int) - 67117698) = -67117698 := by decide
  have hw2 : wrapInt ((0 : Int) - 11586) = -11586 := by decide
  have hf1 : floatOfInt (-67117698) = -67117698 := by
    rw [floatOfInt, roundF64_of_lt _ (by norm_num)]; rfl
  have hf2 : floatOfInt (-11586) = -11586 := by
    rw [floatOfInt, roundF64_of_lt _ (by norm_num)]; rfl
  have hp1 : powTwoF64 (-67117698) = 4504785384819204 := by
    rw [powTwoF64, roundF64_of_lt _ (by norm_num)]; norm_num
  have hp2 : powTwoF64 (-11586) = 134235396 := by
    rw [powTwoF64, roundF64_of_lt _ (by norm_num)]; norm_num
  constructor
  · simp only [edgeLenF64]
    rw [hw1, hw2, hf1, hf2, hp1, hp2, roundF64_of_lt _ (by norm_num)]
    norm_num [hq, truncInt]
  · have hn : (((0 : Int) - 67117698) ^ 2 + ((0 : Int) - 11586) ^ 2).toNat =
        4504785519054600 := by decide
    simp only [edgeLen]
    rw [hn, hs]
    rfl

theorem cropBounds_rectBox (x0 y0 x1 y1 : Int) (hx : x0 < x1) (hy : y0 < y1) :
    cropBounds (rectBox x0 y0 x1 y1) = (x0, x1, y0, y1) := by
  simp only [cropBounds, rectBox, mini, maxi, List.foldl_cons, List.foldl_nil, Prod.mk.injEq]
  omega

theorem rotateCrop_of_rectBox (img : Mat) (x0 y0 x1 y1 : Int) (hx : x0 < x1)
    (hy : y0 < y1) :
    getRotateCropImage img (rectBox x0 y0 x1 y1) =
      if ((y1 - y0 : Int) : ℚ) ≥ ((x1 - x0 : Int) : ℚ) * 1.5 then
        Mat.flip (Mat.transpose (rectWarp img x0 y0 x1 y1)) 0
      else rectWarp img x0 y0 x1 y1 := by
  have hb := cropBounds_rectBox x0 y0 x1 y1 hx hy
  have hl : cropLocal (rectBox x0 y0 x1 y1) = rectBox 0 0 (x1 - x0) (y1 - y0) := by
    unfold cropLocal
    rw [hb]
    simp [translateBox, rectBox, Point.shift]
  have hw : edgeLen ⟨0, 0⟩ ⟨x1 - x0, 0⟩ = x1 - x0 := by
    have := edgeLen_horizontal 0 (x1 - x0) 0 (by omega)
    simpa using this
  have hh : edgeLen ⟨0, 0⟩ ⟨0, y1 - y0⟩ = y1 - y0 := by
    have := edgeLen_vertical 0 0 (y1 - y0) (by omega)
    simpa using this
  unfold getRotateCropImage
  rw [hb, hl]
  simp only [warpCrop, rectBox, hw, hh, rectWarp, Mat.Rows, Mat.Cols, Mat.size]

/-- The destination rectangle and the size that `getRotateCropImage` hands to the perspective
warp are built from `cropW` and `cropH`, unchanged. -/
theorem getRotateCropImage_warpRequest (img : Mat) (box : Box) :
    (getRotateCropImage img box).warpRequest =
      some ([⟨0, 0⟩, ⟨cropW box, 0⟩, ⟨cropW box, cropH box⟩, ⟨0, cropH box⟩],
        cropW box, cropH box) := by
  unfold getRotateCropImage warpCrop
  simp only [cropW, cropH]
  split_ifs <;> rfl

/-! ## getRotateCropImage: the claims -/

/-- C7: for an axis-aligned rectangle `[(x0,y0), (x1,y0), (x1,y1), (x0,y1)]` with `x0 < x1`
and `y0 < y1`, the target width is `x1 - x0` and the target height `y1 - y0`; when
`y1 - y0 < 1.5 * (x1 - x0)` the result is the warp itself, `x1 - x0` wide and `y1 - y0` high,
and when `y1 - y0 >= 1.5 * (x1 - x0)` it is the transposed and flipped warp, `y1 - y0` wide
and `x1 - x0` high. -/
theorem getRotateCropImage_rect (img : Mat) (x0 y0 x1 y1 : Int) (hx : x0 < x1) (hy : y0 < y1) :
    cropW (rectBox x0 y0 x1 y1) = x1 - x0 ∧ cropH (rectBox x0 y0 x1 y1) = y1 - y0 ∧
      (((y1 - y0 : Int) : ℚ) < 1.5 * ((x1 - x0 : Int) : ℚ) →
        getRotateCropImage img (rectBox x0 y0 x1 y1) = rectWarp img x0 y0 x1 y1 ∧
          (getRotateCropImage img (rectBox x0 y0 x1 y1)).Cols = x1 - x0 ∧
          (getRotateCropImage img (rectBox x0 y0 x1 y1)).Rows = y1 - y0) ∧
      (1.5 * ((x1 - x0 : Int) : ℚ) ≤ ((y1 - y0 : Int) : ℚ) →
        getRotateCropImage img (rectBox x0 y0 x1 y1) =
            Mat.flip (Mat.transpose (rectWarp img x0 y0 x1 y1)) 0 ∧
          (getRotateCropImage img (rectBox x0 y0 x1 y1)).Cols = y1 - y0 ∧
          (getRotateCropImage img (rectBox x0 y0 x1 y1)).Rows = x1 - x0) := by
  have hg := rotateCrop_of_rectBox img x0 y0 x1 y1 hx hy
  refine ⟨?_, ?_, ?_, ?_⟩
  · rw [cropW_eq]; exact edgeLen_horizontal x0 x1 y0 (by omega)
  · rw [cropH_eq]; exact edgeLen_vertical x0 y0 y1 (by omega)
  · intro hlt
    have hn : ¬ (((y1 - y0 : Int) : ℚ) ≥ ((x1 - x0 : Int) : ℚ) * 1.5) := by
      rw [not_le]; linarith
    rw [hg, if_neg hn]
    simp [rectWarp, Mat.Rows, Mat.Cols, Mat.size]
  · intro hge
    have hp : ((y1 - y0 : Int) : ℚ) ≥ ((x1 - x0 : Int) : ℚ) * 1.5 := by linarith
    rw [hg, if_pos hp]
    simp [rectWarp, Mat.Rows, Mat.Cols, Mat.size]

/-- Witness of C7: the 50x50 square over a 100x100 image stays 50 wide and 50 high with no
fix-up, and the width-10, height-20 rectangle becomes 20 wide and 10 high. -/
theorem getRotateCropImage_rect_witness :
    ((0 : Int) < 50 ∧ (0 : Int) < 50) ∧
      (getRotateCropImage (Mat.image 0 100 100) (rectBox 0 0 50 50) =
          rectWarp (Mat.image 0 100 100) 0 0 50 50 ∧
        (getRotateCropImage (Mat.image 0 100 100) (rectBox 0 0 50 50)).Cols = 50 - 0 ∧
        (getRotateCropImage (Mat.image 0 100 100) (rectBox 0 0 50 50)).Rows = 50 - 0) ∧
      (getRotateCropImage (Mat.image 0 100 100) (rectBox 0 0 10 20) =
          Mat.flip (Mat.transpose (rectWarp (Mat.image 0 100 100) 0 0 10 20)) 0 ∧
        (getRotateCropImage (Mat.image 0 100 100) (rectBox 0 0 10 20)).Cols = 20 - 0 ∧
        (getRotateCropImage (Mat.image 0 100 100) (rectBox 0 0 10 20)).Rows = 10 - 0) :=
  ⟨⟨by decide, by decide⟩,
    (getRotateCropImage_rect (Mat.image 0 100 100) 0 0 50 50 (by decide) (by decide)).2.2.1
      (by norm_num),
    (getRotateCropImage_rect (Mat.image 0 100 100) 0 0 10 20 (by decide) (by decide)).2.2.2
      (by norm_num)⟩

/-- C8, as the claim states it, fails: on the region with corners `(0,0), (2,2), (2,5), (0,3)`
the distance from corner 0 to corner 1 is the square root of 8, which rounds to 3, while the
target width computed is 2. -/
theorem cropW_not_rounded :
    cropW skewBox = 2 ∧
      round (Real.sqrt ((((skewBox.p0.x - skewBox.p1.x) ^ 2 +
        (skewBox.p0.y - skewBox.p1.y) ^ 2 : Int) : ℝ))) = 3 ∧
      cropW skewBox ≠ round (Real.sqrt ((((skewBox.p0.x - skewBox.p1.x) ^ 2 +
        (skewBox.p0.y - skewBox.p1.y) ^ 2 : Int) : ℝ))) := by
  have h1 : cropW skewBox = 2 := by
    have hn : ((skewBox.p0.x - skewBox.p1.x) ^ 2 +
        (skewBox.p0.y - skewBox.p1.y) ^ 2).toNat = 8 := by decide
    have hs : Nat.sqrt 8 = 2 := (Nat.eq_sqrt.mpr ⟨by decide, by decide⟩).symm
    rw [cropW_eq, edgeLen, hn, hs]
    rfl
  have h2 : round (Real.sqrt ((((skewBox.p0.x - skewBox.p1.x) ^ 2 +
      (skewBox.p0.y - skewBox.p1.y) ^ 2 : Int) : ℝ))) = 3 := by
    have h8 : ((((skewBox.p0.x - skewBox.p1.x) ^ 2 +
        (skewBox.p0.y - skewBox.p1.y) ^ 2 : Int) : ℝ)) = 8 := by
      norm_num [skewBox]
    rw [h8, round_eq, Int.floor_eq_iff]
    constructor
    · have : (5 / 2 : ℝ) ≤ Real.sqrt 8 := by
        rw [Real.le_sqrt (by norm_num)] <;> norm_num
      push_cast; linarith
    · have : Real.sqrt 8 < 7 / 2 := by
        rw [Real.sqrt_lt' (by norm_num)]; norm_num
      push_cast; linarith
  refine ⟨h1, h2, ?_⟩
  rw [h1, h2]
  decide

/-- C8, amended: for every four-corner region whose edges from corner 0 to corner 1 and from
corner 0 to corner 3 have a squared length below `2^52`, the target width computed in Go's
`int` and float64 arithmetic is the Euclidean distance between corner 0 and corner 1 of the
region passed in, truncated to an integer (its floor), and the target height is the distance
between corner 0 and corner 3, truncated; the translation by `(left, top)` that precedes the
computation does not change either. These two values are the size requested from the
warp. -/
theorem cropW_cropH_truncated (box : Box)
    (hw : (box.p0.x - box.p1.x) ^ 2 + (box.p0.y - box.p1.y) ^ 2 < 2 ^ 52)
    (hh : (box.p0.x - box.p3.x) ^ 2 + (box.p0.y - box.p3.y) ^ 2 < 2 ^ 52) :
    cropWF64 box = some ⌊Real.sqrt ((((box.p0.x - box.p1.x) ^ 2 +
        (box.p0.y - box.p1.y) ^ 2 : Int) : ℝ))⌋ ∧
      cropHF64 box = some ⌊Real.sqrt ((((box.p0.x - box.p3.x) ^ 2 +
        (box.p0.y - box.p3.y) ^ 2 : Int) : ℝ))⌋ ∧
      cropWF64 box = some (cropW box) ∧ cropHF64 box = some (cropH box) ∧
      (∀ img : Mat, (getRotateCropImage img box).warpRequest =
        some ([⟨0, 0⟩, ⟨cropW box, 0⟩, ⟨cropW box, cropH box⟩, ⟨0, cropH box⟩],
          cropW box, cropH box)) := by
  have h1 : cropWF64 box = some (cropW box) := by
    rw [cropWF64_eq, cropW_eq]; exact edgeLenF64_eq_edgeLen _ _ hw
  have h2 : cropHF64 box = some (cropH box) := by
    rw [cropHF64_eq, cropH_eq]; exact edgeLenF64_eq_edgeLen _ _ hh
  refine ⟨?_, ?_, h1, h2, fun img => getRotateCropImage_warpRequest img box⟩
  · rw [h1, cropW_eq, edgeLen_eq_floor]
  · rw [h2, cropH_eq, edgeLen_eq_floor]

/-- Witness of C8, amended, on the region with corners `(0,0), (2,2), (2,5), (0,3)`. -/
theorem cropW_cropH_truncated_witness :
    ((skewBox.p0.x - skewBox.p1.x) ^ 2 + (skewBox.p0.y - skewBox.p1.y) ^ 2 < 2 ^ 52 ∧
      (skewBox.p0.x - skewBox.p3.x) ^ 2 + (skewBox.p0.y - skewBox.p3.y) ^ 2 < 2 ^ 52) ∧
      cropWF64 skewBox = some ⌊Real.sqrt ((((skewBox.p0.x - skewBox.p1.x) ^ 2 +
        (skewBox.p0.y - skewBox.p1.y) ^ 2 : Int) : ℝ))⌋ ∧
      cropWF64 skewBox = some (cropW skewBox) :=
  ⟨⟨by norm_num [skewBox], by norm_num [skewBox]⟩,
    (cropW_cropH_truncated skewBox (by norm_num [skewBox]) (by norm_num [skewBox])).1,
    (cropW_cropH_truncated skewBox (by norm_num [skewBox]) (by norm_num [skewBox])).2.2.1⟩

/-- C9, as the claim states it, fails: on the region whose four corners all are `(5,5)` the
target width and height are 0, the destination rectangle is the single point `(0,0)` and
the warp is requested with size `(0, 0)`. -/
theorem cropW_cropH_degenerate_zero :
    cropW (boxAt 5 5) = 0 ∧ cropH (boxAt 5 5) = 0 ∧
      ¬ (1 ≤ cropW (boxAt 5 5) ∧ 1 ≤ cropH (boxAt 5 5)) ∧
      (getRotateCropImage (Mat.image 0 100 100) (boxAt 5 5)).warpRequest =
        some ([⟨0, 0⟩, ⟨0, 0⟩, ⟨0, 0⟩, ⟨0, 0⟩], 0, 0) := by
  have h1 : cropW (boxAt 5 5) = 0 := by
    rw [cropW_eq]; simp [edgeLen, boxAt]
  have h2 : cropH (boxAt 5 5) = 0 := by
    rw [cropH_eq]; simp [edgeLen, boxAt]
  refine ⟨h1, h2, ?_, ?_⟩
  · rw [h1]; decide
  · rw [getRotateCropImage_warpRequest, h1, h2]

/-- C9, amended: the destination rectangle and the warp size are built from the computed
target width and height as they are; these are never negative, the width is at least 1
exactly when corner 0 differs from corner 1, and the height is at least 1 exactly when
corner 0 differs from corner 3. -/
theorem cropW_cropH_pos_iff (box : Box) :
    (∀ img : Mat, (getRotateCropImage img box).warpRequest =
        some ([⟨0, 0⟩, ⟨cropW box, 0⟩, ⟨cropW box, cropH box⟩, ⟨0, cropH box⟩],
          cropW box, cropH box)) ∧
      0 ≤ cropW box ∧ 0 ≤ cropH box ∧ (1 ≤ cropW box ↔ box.p0 ≠ box.p1) ∧
      (1 ≤ cropH box ↔ box.p0 ≠ box.p3) := by
  refine ⟨fun img => getRotateCropImage_warpRequest img box, ?_⟩
  rw [cropW_eq, cropH_eq]
  exact ⟨edgeLen_nonneg _ _, edgeLen_nonneg _ _, edgeLen_pos_iff _ _, edgeLen_pos_iff _ _⟩

/-! ## The region after rectification -/

theorem row_set_same (h : Heap) (a : Nat) (v : Point) (ha : a < h.length) :
    Heap.row (h.set a v) a = v := by
  simp [Heap.row, List.getD_eq_getElem?_getD, ha]

theorem row_set_other (h : Heap) (a b : Nat) (v : Point) (hab : a ≠ b) :
    Heap.row (h.set a v) b = Heap.row h b := by
  simp [Heap.row, List.getD_eq_getElem?_getD, List.getElem?_set_ne hab]

theorem length_translateRows (left top : Int) (rows : List Nat) (h : Heap) :
    (translateRows left top rows h).length = h.length := by
  induction rows generalizing h with
  | nil => rfl
  | cons a rest ih => simp [translateRows, ih]

theorem row_translateRows_of_not_mem (left top : Int) (rows : List Nat) (h : Heap) (a : Nat)
    (ha : a ∉ rows) : Heap.row (translateRows left top rows h) a = Heap.row h a := by
  induction rows generalizing h with
  | nil => rfl
  | cons b rest ih =>
    rw [List.mem_cons, not_or] at ha
    simp only [translateRows]
    rw [ih _ ha.2, row_set_other _ _ _ _ (Ne.symm ha.1)]

/-- On a region whose four rows are distinct backing arrays, `getRotateCropImage` returns the
image computed from the coordinates passed in, and leaves the rows of its argument holding
the crop-local coordinates. -/
theorem getRotateCropImageMem_spec (img : Mat) (h : Heap) (b : BoxRef)
    (hd : b.rows.Nodup) (hv : ∀ a ∈ b.rows, a < h.length) :
    (getRotateCropImageMem img h b).1 = getRotateCropImage img (readBox h b) ∧
      readBox (getRotateCropImageMem img h b).2 b = cropLocal (readBox h b) := by
  simp only [BoxRef.rows, List.nodup_cons, List.mem_cons, List.mem_singleton, not_or,
    List.not_mem_nil, not_false_eq_true, List.nodup_nil, and_true] at hd
  obtain ⟨⟨h01, h02, h03⟩, ⟨h12, h13⟩, h23⟩ := hd
  have v0 : b.r0 < h.length := hv _ (by simp [BoxRef.rows])
  have v1 : b.r1 < h.length := hv _ (by simp [BoxRef.rows])
  have v2 : b.r2 < h.length := hv _ (by simp [BoxRef.rows])
  have v3 : b.r3 < h.length := hv _ (by simp [BoxRef.rows])
  have key : readBox (getRotateCropImageMem img h b).2 b = cropLocal (readBox h b) := by
    simp only [getRotateCropImageMem, BoxRef.rows, translateRows, readBox, cropLocal,
      translateBox]
    simp [row_set_same, row_set_other, v0, v1, v2, v3, h01, h02, h03, h12, h13, h23,
      Ne.symm h01, Ne.symm h02, Ne.symm h03, Ne.symm h12, Ne.symm h13, Ne.symm h23]
  refine ⟨?_, key⟩
  have key2 := key
  simp only [getRotateCropImageMem] at key2 ⊢
  rw [key2]
  rfl

theorem row_getRotateCropImageMem_of_not_mem (img : Mat) (h : Heap) (b : BoxRef) (a : Nat)
    (ha : a ∉ b.rows) : Heap.row (getRotateCropImageMem img h b).2 a = Heap.row h a := by
  simp only [getRotateCropImageMem]
  exact row_translateRows_of_not_mem _ _ _ _ _ ha

theorem length_getRotateCropImageMem (img : Mat) (h : Heap) (b : BoxRef) :
    (getRotateCropImageMem img h b).2.length = h.length := by
  simp only [getRotateCropImageMem]
  exact length_translateRows _ _ _ _

theorem readBox_congr (h1 h2 : Heap) (b : BoxRef)
    (hr : ∀ a ∈ b.rows, Heap.row h1 a = Heap.row h2 a) : readBox h1 b = readBox h2 b := by
  simp only [readBox]
  rw [hr b.r0 (by simp [BoxRef.rows]), hr b.r1 (by simp [BoxRef.rows]),
    hr b.r2 (by simp [BoxRef.rows]), hr b.r3 (by simp [BoxRef.rows])]

theorem row_cropLoop_of_not_mem (img : Mat) (refs : List BoxRef) (h : Heap) (a : Nat)
    (ha : a ∉ allRows refs) : Heap.row (cropLoop img refs h).2 a = Heap.row h a := by
  induction refs generalizing h with
  | nil => rfl
  | cons b rest ih =>
    simp only [allRows, List.mem_append, not_or] at ha
    simp only [cropLoop, copyBox]
    rw [ih _ ha.2]
    exact row_getRotateCropImageMem_of_not_mem img h b a ha.1

theorem rows_subset_allRows (refs : List BoxRef) (b : BoxRef) (hb : b ∈ refs) (a : Nat)
    (ha : a ∈ b.rows) : a ∈ allRows refs := by
  induction refs with
  | nil => cases hb
  | cons c rest ih =>
    simp only [allRows, List.mem_append]
    rcases List.mem_cons.mp hb with hc | hc
    · left; rw [← hc]; exact ha
    · right; exact ih hc

/-- The loop of `Run` over regions that share no row: the crops are those computed from the
coordinates the regions held before the loop, in order, and every region is left holding
its crop-local coordinates. -/
theorem cropLoop_spec (img : Mat) (refs : List BoxRef) (h : Heap)
    (hd : (allRows refs).Nodup) (hv : ∀ a ∈ allRows refs, a < h.length) :
    (cropLoop img refs h).1 = refs.map (fun b => getRotateCropImage img (readBox h b)) ∧
      ∀ b ∈ refs, readBox (cropLoop img refs h).2 b = cropLocal (readBox h b) := by
  induction refs generalizing h with
  | nil => simp [cropLoop]
  | cons b rest ih =>
    simp only [allRows] at hd hv
    rw [List.nodup_append] at hd
    obtain ⟨hdb, hdr, hdis⟩ := hd
    have hvb : ∀ a ∈ b.rows, a < h.length := fun a ha => hv a (List.mem_append_left _ ha)
    have hb := getRotateCropImageMem_spec img h b hdb hvb
    have hvr : ∀ a ∈ allRows rest, a < (getRotateCropImageMem img h b).2.length := by
      intro a ha
      rw [length_getRotateCropImageMem]
      exact hv a (List.mem_append_right _ ha)
    have hi := ih (getRotateCropImageMem img h b).2 hdr hvr
    have hsame : ∀ b2 ∈ rest, readBox (getRotateCropImageMem img h b).2 b2 = readBox h b2 := by
      intro b2 hb2
      refine readBox_congr _ _ _ (fun a ha => ?_)
      refine row_getRotateCropImageMem_of_not_mem img h b a (fun hab => ?_)
      exact hdis hab (rows_subset_allRows rest b2 hb2 a ha)
    constructor
    · simp only [cropLoop, copyBox, List.map_cons]
      rw [hb.1, hi.1]
      congr 1
      exact List.map_congr_left (fun b2 hb2 => by rw [hsame b2 hb2])
    · intro b2 hb2
      simp only [cropLoop, copyBox]
      rcases List.mem_cons.mp hb2 with hc | hc
      · rw [hc]
        rw [← hb.2]
        refine readBox_congr _ _ _ (fun a ha => ?_)
        exact row_cropLoop_of_not_mem img rest _ a (fun har => hdis ha har)
      · rw [hi.2 b2 hc, hsame b2 hc]

theorem cropLoop_length (img : Mat) (refs : List BoxRef) (h : Heap) :
    (cropLoop img refs h).1.length = refs.length := by
  induction refs generalizing h with
  | nil => rfl
  | cons b rest ih => simp [cropLoop, ih]

/-- The i-th crop of the loop is the image `getRotateCropImage` returns for the i-th region,
called on the heap the first `i` calls have left. -/
theorem cropLoop_getElem (img : Mat) (refs : List BoxRef) (h : Heap) (i : Nat) (b : BoxRef)
    (hb : refs[i]? = some b) :
    (cropLoop img refs h).1[i]? =
      some (getRotateCropImageMem img (cropLoop img (refs.take i) h).2 b).1 := by
  induction refs generalizing h i with
  | nil => simp at hb
  | cons b0 rest ih =>
    cases i with
    | zero =>
      simp only [List.getElem?_cons_zero, Option.some.injEq] at hb
      subst hb
      simp [cropLoop, copyBox]
    | succ j =>
      simp only [List.getElem?_cons_succ] at hb
      simp only [cropLoop, List.getElem?_cons_succ, List.take_succ_cons]
      exact ih _ j hb

/-! ## Facts about sortBoxes on Go's slices -/

theorem bubbleMem_perm (h : Heap) (cur : BoxRef) (rest : List BoxRef) :
    (bubbleMem h cur rest).Perm (cur :: rest) := by
  induction rest generalizing cur with
  | nil => simp [bubbleMem]
  | cons nxt rest ih =>
    by_cases hs : swapCond (readBox h cur) (readBox h nxt) = true
    · simp only [bubbleMem, hs, if_true]
      exact (List.Perm.cons nxt (ih cur)).trans (List.Perm.swap cur nxt rest)
    · simp only [bubbleMem, hs, if_false, Bool.false_eq_true]
      exact List.Perm.cons cur (ih nxt)

theorem correctivePassMem_perm (h : Heap) (l : List BoxRef) :
    (correctivePassMem h l).Perm l := by
  cases l with
  | nil => simp [correctivePassMem]
  | cons b rest => exact bubbleMem_perm h b rest

theorem sortBoxesMem_perm (srt : SliceSort) (hsrt : ∀ less l, (srt less l).Perm l) (h : Heap)
    (boxes : List BoxRef) : (sortBoxesMem srt h boxes).Perm boxes :=
  (correctivePassMem_perm h _).trans (hsrt _ boxes)

theorem allRows_perm {l1 l2 : List BoxRef} (hp : l1.Perm l2) :
    (allRows l1).Perm (allRows l2) := by
  induction hp with
  | nil => exact List.Perm.refl _
  | cons x _ ih => exact List.Perm.append_left _ ih
  | swap x y l =>
    simp only [allRows, ← List.append_assoc]
    exact List.Perm.append_right _ List.perm_append_comm
  | trans _ _ ih1 ih2 => exact ih1.trans ih2

theorem map_sinkLeft {α β : Type} (f : α → β) (less : β → β → Bool) (x : α) (rp : List α) :
    (sinkLeft (fun a b => less (f a) (f b)) x rp).map f = sinkLeft less (f x) (rp.map f) := by
  induction rp with
  | nil => rfl
  | cons p rp ih =>
    by_cases hlt : less (f x) (f p) = true
    · simp [sinkLeft, hlt, ih]
    · simp [sinkLeft, hlt]

theorem map_foldl_sinkLeft {α β : Type} (f : α → β) (less : β → β → Bool) (l acc : List α) :
    (l.foldl (fun rp x => sinkLeft (fun a b => less (f a) (f b)) x rp) acc).map f =
      (l.map f).foldl (fun rp x => sinkLeft less x rp) (acc.map f) := by
  induction l generalizing acc with
  | nil => rfl
  | cons a l ih =>
    simp only [List.foldl_cons, List.map_cons]
    rw [ih, map_sinkLeft]

theorem map_sortSlice {α β : Type} (f : α → β) (less : β → β → Bool) (l : List α) :
    (sortSlice (fun a b => less (f a) (f b)) l).map f = sortSlice less (l.map f) := by
  unfold sortSlice
  rw [List.map_reverse, map_foldl_sinkLeft]
  rfl

theorem map_bubbleMem (h : Heap) (cur : BoxRef) (rest : List BoxRef) :
    (bubbleMem h cur rest).map (readBox h) =
      bubble (readBox h cur) (rest.map (readBox h)) := by
  induction rest generalizing cur with
  | nil => rfl
  | cons nxt rest ih =>
    by_cases hs : swapCond (readBox h cur) (readBox h nxt) = true
    · simp [bubbleMem, bubble, hs, ih]
    · simp [bubbleMem, bubble, hs, ih]

/-- With the insertion sort as `sort.Slice`, `sortBoxes` on Go's slices shows the regions in
the order `sortBoxes` gives their coordinates. -/
theorem sortBoxesMem_sortSlice (h : Heap) (boxes : List BoxRef) :
    (sortBoxesMem sortSlice h boxes).map (readBox h) = sortBoxes (boxes.map (readBox h)) := by
  unfold sortBoxesMem sortBoxes
  rw [← map_sortSlice (readBox h) lessBox boxes]
  cases sortSlice (fun a b => lessBox (readBox h a) (readBox h b)) boxes with
  | nil => rfl
  | cons b rest => exact map_bubbleMem h b rest

/-! ## Run: the claims -/

/-- C4: when the detector returns an empty list, `Run` returns an empty result sequence and
its only call is the one to the detector: `getRotateCropImage`, the classifier and the
recognizer are never invoked. -/
theorem Run_empty_detection {OCRText : Type} (srt : SliceSort)
    (sys : TextPredictSystem OCRText) (img : Mat) (h : (sys.detector img).2 = []) :
    (Run srt sys img).1 = [] ∧ (Run srt sys img).2 = [Call.detect img] ∧
      ∀ c ∈ (Run srt sys img).2, c = Call.detect img := by
  have hr : Run srt sys img = ([], [Call.detect img]) := by
    simp [Run, h]
  rw [hr]
  simp

/-- Witness of C4 on a pipeline whose detector finds nothing. -/
theorem Run_empty_detection_witness :
    (blindSystem.detector (Mat.image 0 100 100)).2 = [] ∧
      ((Run sortSlice blindSystem (Mat.image 0 100 100)).1 = [] ∧
        (Run sortSlice blindSystem (Mat.image 0 100 100)).2 =
          [Call.detect (Mat.image 0 100 100)] ∧
        ∀ c ∈ (Run sortSlice blindSystem (Mat.image 0 100 100)).2,
          c = Call.detect (Mat.image 0 100 100)) :=
  ⟨rfl, Run_empty_detection sortSlice blindSystem (Mat.image 0 100 100) rfl⟩

/-- C3: on a non-empty detection list, with `sort.Slice` any routine that permutes the slice,
the recognizer acting crop by crop as `r` and the classifier, when configured, acting crop
by crop as `c`, `Run` returns one result per detected region, and the i-th result is `r` of
the (classified) i-th crop. The crop batch is built in the order of `sortBoxes(detections)`:
its i-th entry is the image `getRotateCropImage` returns for the i-th sorted region, which,
when no two detected regions share a row, is the crop at the coordinates the detector
reported. With a classifier the batch is replaced by the classifier's output, without one it
goes to the recognizer unchanged and no classifier call is made; the recognizer's output is
returned as is. -/
theorem Run_order_preserved {OCRText : Type} (srt : SliceSort)
    (sys : TextPredictSystem OCRText) (img : Mat) (c : Mat → Mat) (r : Mat → OCRText)
    (hsrt : ∀ less l, (srt less l).Perm l)
    (hne : (sys.detector img).2 ≠ [])
    (hrec : ∀ batch, sys.recognizer batch = batch.map r)
    (hcls : ∀ f, sys.cls = some f → ∀ batch, f batch = batch.map c) :
    (Run srt sys img).1.length = (sys.detector img).2.length ∧
      (sortedBoxes srt sys img).Perm (sys.detector img).2 ∧
      (cropBatch srt sys img).length = (sys.detector img).2.length ∧
      (∀ i b, (sortedBoxes srt sys img)[i]? = some b →
        (cropBatch srt sys img)[i]? = some (getRotateCropImageMem img
          (cropLoop img ((sortedBoxes srt sys img).take i) (sys.detector img).1).2 b).1) ∧
      ((allRows (sys.detector img).2).Nodup →
        (∀ a ∈ allRows (sys.detector img).2, a < (sys.detector img).1.length) →
        cropBatch srt sys img = (sortedBoxes srt sys img).map
          (fun b => getRotateCropImage img (readBox (sys.detector img).1 b))) ∧
      (sys.cls = none →
        (Run srt sys img).1 = sys.recognizer (cropBatch srt sys img) ∧
          (Run srt sys img).1 = (cropBatch srt sys img).map r ∧
          (Run srt sys img).2 = Call.detect img ::
            ((sortedBoxes srt sys img).map (Call.rectify img) ++
              [Call.recognize (cropBatch srt sys img)])) ∧
      (∀ f, sys.cls = some f →
        (Run srt sys img).1 = sys.recognizer (f (cropBatch srt sys img)) ∧
          (Run srt sys img).1 = (cropBatch srt sys img).map (fun m => r (c m)) ∧
          (Run srt sys img).2 = Call.detect img ::
            ((sortedBoxes srt sys img).map (Call.rectify img) ++
              [Call.classify (cropBatch srt sys img),
                Call.recognize (f (cropBatch srt sys img))])) := by
  have hperm : (sortedBoxes srt sys img).Perm (sys.detector img).2 :=
    sortBoxesMem_perm srt hsrt _ _
  have hlen : (cropBatch srt sys img).length = (sys.detector img).2.length := by
    unfold cropBatch
    rw [cropLoop_length, hperm.length_eq]
  have h0 : ¬ (sys.detector img).2.length = 0 := by
    intro hz
    exact hne (List.length_eq_zero.mp hz)
  have hcopy : (fun b : BoxRef => Call.rectify img (copyBox b)) = Call.rectify img := by
    funext b
    rfl
  have hnone : sys.cls = none →
      Run srt sys img = (sys.recognizer (cropBatch srt sys img),
        Call.detect img :: ((sortedBoxes srt sys img).map (Call.rectify img) ++
          [Call.recognize (cropBatch srt sys img)])) := by
    intro hc
    simp [Run, h0, hc, hcopy]
  have hsome : ∀ f, sys.cls = some f →
      Run srt sys img = (sys.recognizer (f (cropBatch srt sys img)),
        Call.detect img :: ((sortedBoxes srt sys img).map (Call.rectify img) ++
          [Call.classify (cropBatch srt sys img),
            Call.recognize (f (cropBatch srt sys img))])) := by
    intro f hc
    simp [Run, h0, hc, hcopy]
  refine ⟨?_, hperm, hlen, ?_, ?_, ?_, ?_⟩
  · cases hc : sys.cls with
    | none => rw [hnone hc]; simp [hrec, hlen]
    | some f => rw [hsome f hc]; simp [hrec, hcls f hc, hlen]
  · intro i b hb
    exact cropLoop_getElem img _ _ i b hb
  · intro hd hv
    have hd2 : (allRows (sortedBoxes srt sys img)).Nodup :=
      (allRows_perm hperm).nodup_iff.mpr hd
    have hv2 : ∀ a ∈ allRows (sortedBoxes srt sys img), a < (sys.detector img).1.length :=
      fun a ha => hv a ((allRows_perm hperm).subset ha)
    exact (cropLoop_spec img _ _ hd2 hv2).1
  · intro hc
    rw [hnone hc]
    exact ⟨rfl, by simp [hrec], rfl⟩
  · intro f hc
    rw [hsome f hc]
    exact ⟨rfl, by simp [hrec, hcls f hc], rfl⟩

/-- Witness of C3 on a pipeline with three detected rectangles, each with rows of its own,
and a classifier. -/
theorem Run_order_preserved_witness :
    (sizeSystem.detector (Mat.image 0 100 100)).2 ≠ [] ∧
      (Run sortSlice sizeSystem (Mat.image 0 100 100)).1.length = 3 ∧
      (Run sortSlice sizeSystem (Mat.image 0 100 100)).1 =
        (cropBatch sortSlice sizeSystem (Mat.image 0 100 100)).map
          (fun m => ((Mat.flip m (-1)).Cols, (Mat.flip m (-1)).Rows)) ∧
      cropBatch sortSlice sizeSystem (Mat.image 0 100 100) =
        (sortedBoxes sortSlice sizeSystem (Mat.image 0 100 100)).map
          (fun b => getRotateCropImage (Mat.image 0 100 100)
            (readBox (sizeSystem.detector (Mat.image 0 100 100)).1 b)) ∧
      (sortedBoxes sortSlice sizeSystem (Mat.image 0 100 100)).map
          (readBox (sizeSystem.detector (Mat.image 0 100 100)).1) =
        [rectBox 0 0 50 20, rectBox 60 0 100 20, rectBox 0 40 30 60] :=
  ⟨by decide,
    (Run_order_preserved sortSlice sizeSystem (Mat.image 0 100 100) (fun m => Mat.flip m (-1))
      (fun m => (m.Cols, m.Rows)) (fun less l => sortSlice_perm less l) (by decide)
      (fun _ => rfl) (fun f hf batch => by cases hf; rfl)).1,
    ((Run_order_preserved sortSlice sizeSystem (Mat.image 0 100 100)
      (fun m => Mat.flip m (-1)) (fun m => (m.Cols, m.Rows))
      (fun less l => sortSlice_perm less l) (by decide)
      (fun _ => rfl) (fun f hf batch => by cases hf; rfl)).2.2.2.2.2.2 _ rfl).2.1,
    (Run_order_preserved sortSlice sizeSystem (Mat.image 0 100 100) (fun m => Mat.flip m (-1))
      (fun m => (m.Cols, m.Rows)) (fun less l => sortSlice_perm less l) (by decide)
      (fun _ => rfl) (fun f hf batch => by cases hf; rfl)).2.2.2.2.1 (by decide) (by decide),
    by decide⟩

/-- When the detector lists one `[][]int` twice, the second call of the loop finds the rows
already translated: its crop is the one of `[(0,0), (50,0), (50,50), (0,50)]`, not of the
detected `[(10,20), (60,20), (60,70), (10,70)]`. -/
theorem cropLoop_shared_rows :
    (cropLoop (Mat.image 0 100 100) [⟨0, 1, 2, 3⟩, ⟨0, 1, 2, 3⟩] oneRegionHeap).1 =
      [getRotateCropImage (Mat.image 0 100 100) (rectBox 10 20 60 70),
        getRotateCropImage (Mat.image 0 100 100) (rectBox 0 0 50 50)] := by
  have h1 := getRotateCropImageMem_spec (Mat.image 0 100 100) oneRegionHeap ⟨0, 1, 2, 3⟩
    (by decide) (by decide)
  have hh : (getRotateCropImageMem (Mat.image 0 100 100) oneRegionHeap ⟨0, 1, 2, 3⟩).2 =
      [⟨0, 0⟩, ⟨50, 0⟩, ⟨50, 50⟩, ⟨0, 50⟩] := by decide
  have h2 := getRotateCropImageMem_spec (Mat.image 0 100 100)
    [⟨0, 0⟩, ⟨50, 0⟩, ⟨50, 50⟩, ⟨0, 50⟩] ⟨0, 1, 2, 3⟩ (by decide) (by decide)
  have hr1 : readBox oneRegionHeap ⟨0, 1, 2, 3⟩ = rectBox 10 20 60 70 := by decide
  have hr2 : readBox [⟨0, 0⟩, ⟨50, 0⟩, ⟨50, 50⟩, ⟨0, 50⟩] ⟨0, 1, 2, 3⟩ = rectBox 0 0 50 50 := by
    decide
  simp only [cropLoop, copyBox]
  rw [hh, h1.1, h2.1, hr1, hr2]

/-- C2: the rectification step of `Run` changes the caller's region. With one detected
region `[(10,20), (60,20), (60,70), (10,70)]`, after the loop of `Run` has copied it into
`tmpbox` and called `getRotateCropImage(srcimg, tmpbox)`, the region `boxes[0]` reads
`[(0,0), (50,0), (50,50), (0,50)]`: the subtraction of `(left, top) = (10, 20)` went through
the row headers that `tmpbox` shares with `boxes[0]`. -/
theorem cropLoop_mutates_region :
    readBox oneRegionHeap ⟨0, 1, 2, 3⟩ = rectBox 10 20 60 70 ∧
      readBox (cropLoop (Mat.image 0 100 100) [⟨0, 1, 2, 3⟩] oneRegionHeap).2 ⟨0, 1, 2, 3⟩ =
        rectBox 0 0 50 50 ∧
      readBox (cropLoop (Mat.image 0 100 100) [⟨0, 1, 2, 3⟩] oneRegionHeap).2 ⟨0, 1, 2, 3⟩ ≠
        readBox oneRegionHeap ⟨0, 1, 2, 3⟩ := by
  refine ⟨by decide, by decide, by decide⟩

end Ocr
